import Mathlib

/-!
Verification of the summary ingestion pipeline and metadata store of `pm`,
a binary package manager for pkgsrc (sources: src/summary.rs, src/pmdb.rs,
src/update.rs).

The byte buffer of `SummaryStream` is modelled after UTF-8 decoding, as a
`List Char`; chunk boundaries are taken at character boundaries.  All other
structures follow the Rust source field by field.  Rust panics (`unwrap` on
`Err`/`None`, out-of-bounds indexing, the explicit `panic!` calls) are
modelled by `Option`/dedicated constructors: a `none`/`panic` result stands
for abrupt termination of the process.
-/

set_option maxHeartbeats 2000000
set_option maxRecDepth 4000

/-- Split a character list at every newline, keeping all pieces
(including a final piece after the last newline).  Mirrors the splitting
that underlies Rust `str::lines`. -/
def splitNlAux : List Char → List (List Char)
| [] => [[]]
| c :: rest =>
  if c = '\n' then [] :: splitNlAux rest
  else
    match splitNlAux rest with
    | [] => [[c]]
    | l :: ls => (c :: l) :: ls

/-- Remove one trailing carriage return, as Rust `str::lines` does for
lines terminated by a newline. -/
def stripCr (l : List Char) : List Char :=
  if l.getLast? = some '\r' then l.dropLast else l

/-- Rust `str::lines`: split at newlines; every newline-terminated piece
has a trailing carriage return stripped; a final empty piece (from a
trailing newline, or an empty string) is dropped; a final non-terminated
piece is kept as is. -/
def rustLines (s : List Char) : List (List Char) :=
  let ps := splitNlAux s
  ps.dropLast.map stripCr ++
    (match ps.getLast? with
     | some [] => []
     | some l => [l]
     | none => [])

/-- Rust `line.splitn(2, '=')` followed by reading pieces 0 and 1: split at
the first equals sign; `none` when the line has no equals sign (in which
case `SummaryStream::write` panics on the line). -/
def splitFirstEq : List Char → Option (List Char × List Char)
| [] => none
| c :: rest =>
  if c = '=' then some ([], rest)
  else (splitFirstEq rest).map (fun p => (c :: p.1, p.2))

/-- Rust `value.rsplitn(2, '-')` as used by the PKGNAME handler: split at
the LAST hyphen into (base, version); `none` when the value contains no
hyphen (in which case the source's `v[1]` indexing panics). -/
def rsplitHyphen : List Char → Option (List Char × List Char)
| [] => none
| c :: rest =>
  match rsplitHyphen rest with
  | some (b, ver) => some (c :: b, ver)
  | none => if c = '-' then some ([], rest) else none

/-- Accumulate a decimal natural number; `none` on any non-digit. -/
def parseDigitsAux (acc : Nat) : List Char → Option Nat
| [] => some acc
| c :: rest =>
  if '0' ≤ c ∧ c ≤ '9' then
    parseDigitsAux (acc * 10 + (c.toNat - '0'.toNat)) rest
  else none

/-- Bounds check of Rust `i64`. -/
def fitsI64 (n : Int) : Option Int :=
  if -(2 ^ 63) ≤ n ∧ n < 2 ^ 63 then some n else none

/-- Rust `value.parse::<i64>()`: optional sign, then one or more decimal
digits, the value fitting in a signed 64-bit integer; anything else is a
parse error (`none`). -/
def parseI64 (s : List Char) : Option Int :=
  match s with
  | '+' :: rest =>
    match rest with
    | [] => none
    | _ => (parseDigitsAux 0 rest).bind (fun n => fitsI64 (Int.ofNat n))
  | '-' :: rest =>
    match rest with
    | [] => none
    | _ => (parseDigitsAux 0 rest).bind (fun n => fitsI64 (-(Int.ofNat n)))
  | [] => none
  | _ => (parseDigitsAux 0 s).bind (fun n => fitsI64 (Int.ofNat n))

/-- Rust `s.rfind("\n\n")` combined with the prefix/remainder split of
`SummaryStream::write`: `some (pre, rest)` where `pre` ends exactly two
characters after the start of the LAST occurrence of a double newline and
`rest` is the remainder; `none` when there is no double newline. -/
def splitLastBoundary : List Char → Option (List Char × List Char)
| [] => none
| c :: rest =>
  match splitLastBoundary rest with
  | some (p, r) => some (c :: p, r)
  | none =>
    if c = '\n' ∧ rest.head? = some '\n' then some (['\n', '\n'], rest.tail)
    else none

/-- Rust `input_string.split_terminator("\n\n")`: greedy left-to-right
split at double newlines, with a final empty piece (when the string ends
exactly at a terminator) dropped. -/
def splitRecords : List Char → List (List Char)
| [] => []
| [c] => [[c]]
| c :: d :: rest =>
  if c = '\n' ∧ d = '\n' then [] :: splitRecords rest
  else
    match splitRecords (d :: rest) with
    | [] => [[c]]
    | l :: ls => (c :: l) :: ls

/-- Whether the character list contains three consecutive newlines,
i.e. two overlapping record boundaries. -/
def hasTriple : List Char → Bool
| [] => false
| c :: rest =>
  (decide (c = '\n' ∧ rest.head? = some '\n' ∧ rest.tail.head? = some '\n'))
    || hasTriple rest

/-- One pkg_summary(5) entry, field for field the Rust `SummaryEntry`
struct (src/summary.rs).  Strings are `List Char`, `Vec<String>` is
`List (List Char)`, `Option<i64>` is `Option Int`. -/
structure SummaryEntry where
  automatic : Option Int := none
  build_date : List Char := []
  categories : List (List Char) := []
  comment : List Char := []
  conflicts : List (List Char) := []
  depends : List (List Char) := []
  description : List (List Char) := []
  file_cksum : Option (List Char) := none
  file_name : Option (List Char) := none
  file_size : Option Int := none
  homepage : Option (List Char) := none
  license : Option (List Char) := none
  machine_arch : List Char := []
  opsys : List Char := []
  os_version : List Char := []
  pkg_options : Option (List Char) := none
  pkgbase : List Char := []
  pkgname : List Char := []
  pkgpath : List Char := []
  pkgtools_version : List Char := []
  pkgversion : List Char := []
  prev_pkgpath : Option (List Char) := none
  provides : List (List Char) := []
  requires : List (List Char) := []
  size_pkg : Option Int := none
  supersedes : List (List Char) := []
deriving DecidableEq

/-- Rust `SummaryEntry::new()` (all fields default). -/
def SummaryEntry.new : SummaryEntry := {}

/-- Outcome of `SummaryEntry::parse_entry`: `ok` is `Ok(())` together with
the updated entry, `err` is `Err(..)` (the entry is left unchanged by the
source, the caller logs and continues), `panic` is an `unwrap`/indexing
panic inside the handler (abrupt termination). -/
inductive ParseResult where
| ok : SummaryEntry → ParseResult
| err : String → ParseResult
| panic : ParseResult
deriving DecidableEq

/-- Rust `SummaryEntry::parse_entry` (src/summary.rs): dispatch on the key,
multi-valued keys push, scalar keys overwrite; FILE_SIZE and SIZE_PKG
`unwrap` the i64 parse (panic on a malformed value); PKGNAME is split at
its rightmost hyphen into base and version (panic when there is no
hyphen); an unrecognized key is `Err("Unhandled key")`. -/
def SummaryEntry.parse_entry (e : SummaryEntry) (key value : List Char) :
    ParseResult :=
  if key = "BUILD_DATE".data then .ok { e with build_date := value }
  else if key = "CATEGORIES".data then
    .ok { e with categories := e.categories ++ [value] }
  else if key = "COMMENT".data then .ok { e with comment := value }
  else if key = "CONFLICTS".data then
    .ok { e with conflicts := e.conflicts ++ [value] }
  else if key = "DEPENDS".data then
    .ok { e with depends := e.depends ++ [value] }
  else if key = "DESCRIPTION".data then
    .ok { e with description := e.description ++ [value] }
  else if key = "FILE_CKSUM".data then .ok { e with file_cksum := some value }
  else if key = "FILE_NAME".data then .ok { e with file_name := some value }
  else if key = "FILE_SIZE".data then
    match parseI64 value with
    | some n => .ok { e with file_size := some n }
    | none => .panic
  else if key = "HOMEPAGE".data then .ok { e with homepage := some value }
  else if key = "LICENSE".data then .ok { e with license := some value }
  else if key = "MACHINE_ARCH".data then .ok { e with machine_arch := value }
  else if key = "OPSYS".data then .ok { e with opsys := value }
  else if key = "OS_VERSION".data then .ok { e with os_version := value }
  else if key = "PKG_OPTIONS".data then .ok { e with pkg_options := some value }
  else if key = "PKGNAME".data then
    match rsplitHyphen value with
    | some (b, ver) =>
      .ok { e with pkgname := value, pkgbase := b, pkgversion := ver }
    | none => .panic
  else if key = "PKGPATH".data then .ok { e with pkgpath := value }
  else if key = "PKGTOOLS_VERSION".data then
    .ok { e with pkgtools_version := value }
  else if key = "PREV_PKGPATH".data then
    .ok { e with prev_pkgpath := some value }
  else if key = "PROVIDES".data then
    .ok { e with provides := e.provides ++ [value] }
  else if key = "REQUIRES".data then
    .ok { e with requires := e.requires ++ [value] }
  else if key = "SIZE_PKG".data then
    match parseI64 value with
    | some n => .ok { e with size_pkg := some n }
    | none => .panic
  else if key = "SUPERSEDES".data then
    .ok { e with supersedes := e.supersedes ++ [value] }
  else .err ("Unhandled key")

/-- Rust `SummaryEntry::validate` (src/summary.rs): the first missing
required field, or `none` when the entry is valid. -/
def SummaryEntry.validate (e : SummaryEntry) : Option String :=
  if e.build_date = [] then some ("Missing BUILD_DATE")
  else if e.categories = [] then some ("Missing CATEGORIES")
  else if e.comment = [] then some ("Missing COMMENT")
  else if e.description = [] then some ("Missing DESCRIPTION")
  else if e.machine_arch = [] then some ("Missing MACHINE_ARCH")
  else if e.opsys = [] then some ("Missing OPSYS")
  else if e.os_version = [] then some ("Missing OS_VERSION")
  else if e.pkgname = [] then some ("Missing PKGNAME")
  else if e.pkgpath = [] then some ("Missing PKGPATH")
  else if e.pkgtools_version = [] then some ("Missing PKGTOOLS_VERSION")
  else if e.size_pkg = none then some ("Missing SIZE_PKG")
  else none

/-- Rust `SummaryStream` (src/summary.rs): the not-yet-consumed buffer and
the accumulated entries. -/
structure SummaryStream where
  buf : List Char
  entries : List SummaryEntry
deriving DecidableEq

/-- Rust `SummaryStream::new()`. -/
def SummaryStream.new : SummaryStream := ⟨[], []⟩

/-- The per-record line loop of `SummaryStream::write`: split each line at
its first equals sign (panic when there is none), feed key and value to
`parse_entry`; an `Err` from `parse_entry` is logged and the loop continues
with the entry unchanged; a handler panic aborts (`none`). -/
def parseLines (e : SummaryEntry) : List (List Char) → Option SummaryEntry
| [] => some e
| l :: ls =>
  match splitFirstEq l with
  | none => none
  | some (k, v) =>
    match e.parse_entry k v with
    | .ok e1 => parseLines e1 ls
    | .err _ => parseLines e ls
    | .panic => none

/-- The record loop of `SummaryStream::write`: each record is parsed from
a fresh `SummaryEntry::new()`; an entry passing `validate` is pushed onto
the entry vector, a failing one is logged and dropped; a panic while
parsing aborts the whole call (`none`). -/
def processRecords (entries : List SummaryEntry) :
    List (List Char) → Option (List SummaryEntry)
| [] => some entries
| r :: rs =>
  match parseLines SummaryEntry.new (rustLines r) with
  | none => none
  | some e =>
    match e.validate with
    | none => processRecords (entries ++ [e]) rs
    | some _ => processRecords entries rs

/-- What one record contributes to the entry output: its parsed entry when
parsing is panic-free and validation passes, nothing otherwise. -/
def keepEntry (r : List Char) : Option SummaryEntry :=
  match parseLines SummaryEntry.new (rustLines r) with
  | none => none
  | some e =>
    match e.validate with
    | none => some e
    | some _ => none

/-- Rust `<SummaryStream as Write>::write` (src/summary.rs): append the
input to the buffer; find the last record boundary (double newline); if
there is none keep waiting; otherwise parse every record of the prefix up
to that boundary and retain only the remainder in the buffer.  `none`
models the panics of the source (invalid line, malformed numeric value,
hyphen-free PKGNAME). -/
def SummaryStream.write (st : SummaryStream) (input : List Char) :
    Option SummaryStream :=
  match splitLastBoundary (st.buf ++ input) with
  | none => some ⟨st.buf ++ input, st.entries⟩
  | some (pre, rest) =>
    match processRecords st.entries (splitRecords pre) with
    | none => none
    | some es => some ⟨rest, es⟩

/-- Feed a sequence of chunks through `SummaryStream.write` one at a time
(the push-based use of the stream splitter). -/
def SummaryStream.writeAll (st : SummaryStream) :
    List (List Char) → Option SummaryStream
| [] => some st
| c :: cs =>
  match st.write c with
  | none => none
  | some st1 => st1.writeAll cs

/-! ### The metadata store (src/pmdb.rs)

The SQLite database is modelled table by table.  Row ids (INTEGER PRIMARY
KEY, i.e. the rowid) are allocated as max existing id + 1, SQLite's rule
for tables without AUTOINCREMENT; `last_insert_rowid` is the id of the row
just appended.  A failing SQL statement (CREATE of an existing table,
`query_row` on an empty result) and a Rust panic both surface as `none`;
every mutating operation runs inside one transaction, so a `none` leaves
the caller's state untouched. -/

/-- Schema version constant `DB_VERSION` of src/pmdb.rs. -/
def DB_VERSION : Int := 20190305

/-- The tables created by `PMDB::create_default_tables`, in statement
order. -/
def defaultTableNames : List String :=
  ["metadata", "local_repository", "local_pkg", "local_conflicts",
   "local_depends", "local_provides", "local_requires",
   "remote_repository", "remote_pkg", "remote_conflicts",
   "remote_depends", "remote_provides", "remote_requires"]

/-- The tables dropped by `PMDB::drop_default_tables` (DROP TABLE IF
EXISTS), in statement order. -/
def droppedTableNames : List String :=
  ["metadata", "local_repository", "remote_repository", "local_pkg",
   "remote_pkg"]

/-- The schema-level state of the database file: which tables exist, and
the version stamp readable from the `metadata` table (`none` when the
table is missing or empty). -/
structure Schema where
  tables : List String
  version : Option Int
deriving DecidableEq

/-- Rust `PMDB::is_created`: does the `metadata` table exist? -/
def PMDB.is_created (s : Schema) : Bool := s.tables.contains ("metadata")

/-- Rust `PMDB::is_current`: read the version stamp and compare with
`DB_VERSION`; `none` models the `query_row` error when `metadata` has no
row. -/
def PMDB.is_current (s : Schema) : Option Bool :=
  s.version.map (fun v => v == DB_VERSION)

/-- Rust `PMDB::create_default_tables`: one transaction whose batch runs
plain CREATE TABLE statements (no IF NOT EXISTS) for every default table
and then REPLACEs the version stamp; it fails (and the transaction is
rolled back) as soon as one of the tables already exists. -/
def PMDB.create_default_tables (s : Schema) : Option Schema :=
  if defaultTableNames.any (fun t => s.tables.contains t) then none
  else some { tables := s.tables ++ defaultTableNames,
              version := some DB_VERSION }

/-- Rust `PMDB::drop_default_tables`: DROP TABLE IF EXISTS for the five
tables of `droppedTableNames` only. -/
def PMDB.drop_default_tables (s : Schema) : Schema :=
  { tables := s.tables.filter (fun t => !(droppedTableNames.contains t)),
    version := none }

/-- The schema logic of `PMDB::new`: create the schema when the `metadata`
table is absent; when it is present but the stored version differs from
`DB_VERSION`, drop the default tables and re-create; otherwise leave the
database untouched.  `none` is a rusqlite error returned to the caller
(the open fails). -/
def PMDB.new (s : Schema) : Option Schema :=
  if !PMDB.is_created s then PMDB.create_default_tables s
  else
    match PMDB.is_current s with
    | none => none
    | some true => some s
    | some false =>
      PMDB.create_default_tables (PMDB.drop_default_tables s)

/-- One row of the `local_repository` table (`prefixPath` is the `prefix`
column). -/
structure LocalRepoRow where
  id : Int
  prefixPath : List Char
  mtime : Int
  ntime : Int
deriving DecidableEq

/-- One row of the `remote_repository` table. -/
structure RemoteRepoRow where
  id : Int
  prefixPath : List Char
  url : List Char
  summary_suffix : List Char
  mtime : Int
deriving DecidableEq

/-- One row of the `local_pkg` table, column for column.  Option-valued
entry fields are stored through the accessors of src/summary.rs, which
substitute an empty string (`homepage()`, `license()`, `pkg_options()`)
or zero (`automatic()`). -/
structure LocalPkgRow where
  id : Int
  repository_id : Int
  automatic : Int
  build_date : List Char
  categories : List Char
  comment : List Char
  description : List Char
  homepage : List Char
  license : List Char
  opsys : List Char
  os_version : List Char
  pkg_options : List Char
  pkgbase : List Char
  pkgname : List Char
  pkgpath : List Char
  pkgtools_version : List Char
  pkgversion : List Char
  size_pkg : Int
deriving DecidableEq

/-- One row of the `remote_pkg` table (`file_size` is stored via
`file_size()`, i.e. `unwrap_or(0)`). -/
structure RemotePkgRow where
  id : Int
  repository_id : Int
  build_date : List Char
  categories : List Char
  comment : List Char
  description : List Char
  file_size : Int
  homepage : List Char
  license : List Char
  opsys : List Char
  os_version : List Char
  pkg_options : List Char
  pkgbase : List Char
  pkgname : List Char
  pkgpath : List Char
  pkgtools_version : List Char
  pkgversion : List Char
  size_pkg : Int
deriving DecidableEq

/-- One row of any of the satellite tables (`*_conflicts`, `*_depends`,
`*_provides`, `*_requires`): id, owning repository, owning package, one
string value. -/
structure SatRow where
  id : Int
  repository_id : Int
  pkg_id : Int
  value : List Char
deriving DecidableEq

/-- The local-domain tables of the store. -/
structure LocalState where
  repos : List LocalRepoRow := []
  pkgs : List LocalPkgRow := []
  conflicts : List SatRow := []
  depends : List SatRow := []
  provides : List SatRow := []
  requiresRows : List SatRow := []
deriving DecidableEq

/-- The remote-domain tables of the store. -/
structure RemoteState where
  repos : List RemoteRepoRow := []
  pkgs : List RemotePkgRow := []
  conflicts : List SatRow := []
  depends : List SatRow := []
  provides : List SatRow := []
  requiresRows : List SatRow := []
deriving DecidableEq

/-- SQLite rowid allocation for a table without AUTOINCREMENT: one more
than the largest existing id. -/
def nextRowId (ids : List Int) : Int := ids.foldr max 0 + 1

/-- Rust accessor pattern `match &self.f { Some(s) => s, None => "" }`. -/
def optStr (o : Option (List Char)) : List Char := o.getD []

/-- Rust `vec.join(" ")` (categories column). -/
def joinSpace (l : List (List Char)) : List Char := List.intercalate [' '] l

/-- Rust `vec.join("\n")` (description column). -/
def joinNl (l : List (List Char)) : List Char := List.intercalate ['\n'] l

/-- The satellite-insert loops of `insert_local_pkgs` and
`insert_remote_pkgs`: append one row per value, in order, with fresh
ids. -/
def addSatRows (rid pid : Int) : List SatRow → List (List Char) → List SatRow
| tbl, [] => tbl
| tbl, v :: vs =>
  addSatRows rid pid
    (tbl ++ [⟨nextRowId (tbl.map SatRow.id), rid, pid, v⟩]) vs

/-- One iteration of the package loop of `PMDB::insert_local_pkgs`: insert
the `local_pkg` row (the source `unwrap`s `size_pkg`, so a missing size
panics: `none`), take its id as `last_insert_rowid`, and insert the four
satellite-row groups. -/
def insertLocalPkg (st : LocalState) (rid : Int) (p : SummaryEntry) :
    Option LocalState :=
  match p.size_pkg with
  | none => none
  | some sz =>
    let pid := nextRowId (st.pkgs.map LocalPkgRow.id)
    let row : LocalPkgRow :=
      { id := pid, repository_id := rid,
        automatic := p.automatic.getD 0, build_date := p.build_date,
        categories := joinSpace p.categories, comment := p.comment,
        description := joinNl p.description,
        homepage := optStr p.homepage, license := optStr p.license,
        opsys := p.opsys, os_version := p.os_version,
        pkg_options := optStr p.pkg_options, pkgbase := p.pkgbase,
        pkgname := p.pkgname, pkgpath := p.pkgpath,
        pkgtools_version := p.pkgtools_version,
        pkgversion := p.pkgversion, size_pkg := sz }
    some { st with
      pkgs := st.pkgs ++ [row],
      conflicts := addSatRows rid pid st.conflicts p.conflicts,
      depends := addSatRows rid pid st.depends p.depends,
      provides := addSatRows rid pid st.provides p.provides,
      requiresRows := addSatRows rid pid st.requiresRows p.requires }

/-- One iteration of the package loop of `PMDB::insert_remote_pkgs`. -/
def insertRemotePkg (st : RemoteState) (rid : Int) (p : SummaryEntry) :
    Option RemoteState :=
  match p.size_pkg with
  | none => none
  | some sz =>
    let pid := nextRowId (st.pkgs.map RemotePkgRow.id)
    let row : RemotePkgRow :=
      { id := pid, repository_id := rid,
        build_date := p.build_date, categories := joinSpace p.categories,
        comment := p.comment, description := joinNl p.description,
        file_size := p.file_size.getD 0,
        homepage := optStr p.homepage, license := optStr p.license,
        opsys := p.opsys, os_version := p.os_version,
        pkg_options := optStr p.pkg_options, pkgbase := p.pkgbase,
        pkgname := p.pkgname, pkgpath := p.pkgpath,
        pkgtools_version := p.pkgtools_version,
        pkgversion := p.pkgversion, size_pkg := sz }
    some { st with
      pkgs := st.pkgs ++ [row],
      conflicts := addSatRows rid pid st.conflicts p.conflicts,
      depends := addSatRows rid pid st.depends p.depends,
      provides := addSatRows rid pid st.provides p.provides,
      requiresRows := addSatRows rid pid st.requiresRows p.requires }

/-- Rust `PMDB::insert_local_pkgs` (the loop over all entries). -/
def PMDB.insert_local_pkgs (st : LocalState) (rid : Int) :
    List SummaryEntry → Option LocalState
| [] => some st
| p :: ps =>
  match insertLocalPkg st rid p with
  | none => none
  | some st1 => PMDB.insert_local_pkgs st1 rid ps

/-- Rust `PMDB::insert_remote_pkgs`. -/
def PMDB.insert_remote_pkgs (st : RemoteState) (rid : Int) :
    List SummaryEntry → Option RemoteState
| [] => some st
| p :: ps =>
  match insertRemotePkg st rid p with
  | none => none
  | some st1 => PMDB.insert_remote_pkgs st1 rid ps

/-- Rust `PMDB::delete_local_pkgs`: delete every row owned by the
repository from `local_pkg` and the four local satellite tables. -/
def PMDB.delete_local_pkgs (st : LocalState) (rid : Int) : LocalState :=
  { st with
    pkgs := st.pkgs.filter (fun r => r.repository_id != rid),
    conflicts := st.conflicts.filter (fun r => r.repository_id != rid),
    depends := st.depends.filter (fun r => r.repository_id != rid),
    provides := st.provides.filter (fun r => r.repository_id != rid),
    requiresRows := st.requiresRows.filter (fun r => r.repository_id != rid) }

/-- Rust `PMDB::delete_remote_pkgs`. -/
def PMDB.delete_remote_pkgs (st : RemoteState) (rid : Int) : RemoteState :=
  { st with
    pkgs := st.pkgs.filter (fun r => r.repository_id != rid),
    conflicts := st.conflicts.filter (fun r => r.repository_id != rid),
    depends := st.depends.filter (fun r => r.repository_id != rid),
    provides := st.provides.filter (fun r => r.repository_id != rid),
    requiresRows := st.requiresRows.filter (fun r => r.repository_id != rid) }

/-- Rust `LocalRepository` (src/pmdb.rs): the freshness view of one local
repository returned by `get_local_repository`. -/
structure LocalRepository where
  prefixPath : List Char
  mtime : Int
  ntime : Int
  need_update : Bool
deriving DecidableEq

/-- Rust `RemoteRepository` (src/pmdb.rs). -/
structure RemoteRepository where
  url : List Char
  mtime : Int
  summary_suffix : List Char
  need_update : Bool
deriving DecidableEq

/-- Rust `LocalRepository::up_to_date`: pure equality of the stored and
observed (mtime seconds, mtime nanoseconds) token. -/
def LocalRepository.up_to_date (r : LocalRepository) (mtime : Int)
    (ntime : Int) : Bool :=
  r.mtime == mtime && r.ntime == ntime

/-- Rust `RemoteRepository::up_to_date`: pure equality of the stored and
observed (last-modified seconds, summary suffix) token. -/
def RemoteRepository.up_to_date (r : RemoteRepository) (mtime : Int)
    (summary_suffix : List Char) : Bool :=
  r.mtime == mtime && r.summary_suffix == summary_suffix

/-- Rust `PMDB::get_local_repository`: look the prefix up (first matching
row) and return its freshness token; a pure read. -/
def PMDB.get_local_repository (st : LocalState) (pfx : List Char) :
    Option LocalRepository :=
  (st.repos.find? (fun r => r.prefixPath == pfx)).map
    (fun r => ⟨pfx, r.mtime, r.ntime, false⟩)

/-- Rust `PMDB::get_remote_repository`. -/
def PMDB.get_remote_repository (st : RemoteState) (url : List Char) :
    Option RemoteRepository :=
  (st.repos.find? (fun r => r.url == url)).map
    (fun r => ⟨url, r.mtime, r.summary_suffix, false⟩)

/-- Rust `PMDB::insert_local_repository`: one transaction inserting the
repository row (UNIQUE prefix: a duplicate is an SQL error) and all its
packages. -/
def PMDB.insert_local_repository (st : LocalState) (pfx : List Char)
    (mtime : Int) (ntime : Int) (ps : List SummaryEntry) :
    Option LocalState :=
  if st.repos.any (fun r => r.prefixPath == pfx) then none
  else
    let rid := nextRowId (st.repos.map LocalRepoRow.id)
    PMDB.insert_local_pkgs
      { st with repos := st.repos ++ [⟨rid, pfx, mtime, ntime⟩] } rid ps

/-- Rust `PMDB::insert_remote_repository` (UNIQUE url). -/
def PMDB.insert_remote_repository (st : RemoteState) (url : List Char)
    (pfx : List Char) (mtime : Int) (summary_suffix : List Char)
    (ps : List SummaryEntry) : Option RemoteState :=
  if st.repos.any (fun r => r.url == url) then none
  else
    let rid := nextRowId (st.repos.map RemoteRepoRow.id)
    PMDB.insert_remote_pkgs
      { st with repos := st.repos ++ [⟨rid, pfx, url, summary_suffix, mtime⟩] }
      rid ps

/-- The row transformation of the final UPDATE statement of
`PMDB::update_local_repository`: set the freshness metadata of every row
whose prefix matches. -/
def localMetaUpd (pfx : List Char) (mtime : Int) (ntime : Int)
    (r : LocalRepoRow) : LocalRepoRow :=
  if r.prefixPath == pfx then { r with mtime := mtime, ntime := ntime }
  else r

/-- The row transformation of the final UPDATE statement of
`PMDB::update_remote_repository`. -/
def remoteMetaUpd (url : List Char) (mtime : Int)
    (summary_suffix : List Char) (r : RemoteRepoRow) : RemoteRepoRow :=
  if r.url == url then
    { r with mtime := mtime, summary_suffix := summary_suffix }
  else r

/-- Rust `PMDB::update_local_repository`: one transaction that looks up
the repository id by prefix (`query_row` errors when there is none),
deletes every owned package and satellite row, re-inserts the entry list,
and finally updates the repository's freshness metadata. -/
def PMDB.update_local_repository (st : LocalState) (pfx : List Char)
    (mtime : Int) (ntime : Int) (ps : List SummaryEntry) :
    Option LocalState :=
  match st.repos.find? (fun r => r.prefixPath == pfx) with
  | none => none
  | some repo =>
    let st1 := PMDB.delete_local_pkgs st repo.id
    match PMDB.insert_local_pkgs st1 repo.id ps with
    | none => none
    | some st2 =>
      some { st2 with repos := st2.repos.map (localMetaUpd pfx mtime ntime) }

/-- Rust `PMDB::update_remote_repository`. -/
def PMDB.update_remote_repository (st : RemoteState) (url : List Char)
    (mtime : Int) (summary_suffix : List Char) (ps : List SummaryEntry) :
    Option RemoteState :=
  match st.repos.find? (fun r => r.url == url) with
  | none => none
  | some repo =>
    let st1 := PMDB.delete_remote_pkgs st repo.id
    match PMDB.insert_remote_pkgs st1 repo.id ps with
    | none => none
    | some st2 =>
      some { st2 with
        repos := st2.repos.map (remoteMetaUpd url mtime summary_suffix) }

/-- The per-repository decision logic of `update_remote_repositories`
(src/update.rs) once a summary with freshness token (`lm`, `sfx`) has been
fetched: look the URL up; when the stored token matches, do nothing;
otherwise replace, or insert when the repository is unknown.  The boolean
records whether a store write operation was invoked. -/
def update_remote_step (st : RemoteState) (url pfx : List Char) (lm : Int)
    (sfx : List Char) (entries : List SummaryEntry) :
    Option (RemoteState × Bool) :=
  match PMDB.get_remote_repository st url with
  | some r =>
    if r.up_to_date lm sfx then some (st, false)
    else (PMDB.update_remote_repository st url lm sfx entries).map
      (fun s => (s, true))
  | none =>
    (PMDB.insert_remote_repository st url pfx lm sfx entries).map
      (fun s => (s, true))

/-- The decision logic of `update_local_repository` (src/update.rs) for
the local target, with observed token (`mtime`, `ntime`). -/
def update_local_step (st : LocalState) (pfx : List Char) (mtime : Int)
    (ntime : Int) (entries : List SummaryEntry) :
    Option (LocalState × Bool) :=
  match PMDB.get_local_repository st pfx with
  | some r =>
    if r.up_to_date mtime ntime then some (st, false)
    else (PMDB.update_local_repository st pfx mtime ntime entries).map
      (fun s => (s, true))
  | none =>
    (PMDB.insert_local_repository st pfx mtime ntime entries).map
      (fun s => (s, true))

/-! ### Helper lemmas -/

/-- Characterization of `SummaryEntry::validate`: an entry is valid
exactly when the ten required string fields are non-empty and the size
field is present. -/
theorem validate_eq_none_iff (e : SummaryEntry) :
    e.validate = none ↔
      (e.build_date ≠ [] ∧ e.categories ≠ [] ∧ e.comment ≠ [] ∧
       e.description ≠ [] ∧ e.machine_arch ≠ [] ∧ e.opsys ≠ [] ∧
       e.os_version ≠ [] ∧ e.pkgname ≠ [] ∧ e.pkgpath ≠ [] ∧
       e.pkgtools_version ≠ [] ∧ e.size_pkg ≠ none) := by
  unfold SummaryEntry.validate
  split_ifs <;> simp_all

/-- `rsplitHyphen` fails exactly on hyphen-free values. -/
theorem rsplitHyphen_eq_none_iff (v : List Char) :
    rsplitHyphen v = none ↔ '-' ∉ v := by
  induction v with
  | nil => simp [rsplitHyphen]
  | cons c rest ih =>
    cases h : rsplitHyphen rest with
    | some p =>
      obtain ⟨b, ver⟩ := p
      have hmem : '-' ∈ rest := by
        by_contra hn
        simp [ih.mpr hn] at h
      simp [rsplitHyphen, h, List.mem_cons, hmem]
    | none =>
      have hrest : '-' ∉ rest := ih.mp h
      by_cases hc : c = '-'
      · subst hc
        simp [rsplitHyphen, h]
      · simp [rsplitHyphen, h, hc, List.mem_cons, hrest, Ne.symm hc]

/-! ### C9 — PKGNAME handler totality -/

/-- C9: the PKGNAME handler of `SummaryEntry::parse_entry` is panic-free
exactly when the value contains at least one hyphen; for every value with
no hyphen the rightmost-hyphen split yields a single piece and the access
to its second element panics. -/
theorem c9_pkgname_panics_iff_no_hyphen (e : SummaryEntry) (v : List Char) :
    e.parse_entry ("PKGNAME".data) v = ParseResult.panic ↔ '-' ∉ v := by
  unfold SummaryEntry.parse_entry
  rw [if_neg (by decide), if_neg (by decide), if_neg (by decide),
     if_neg (by decide), if_neg (by decide), if_neg (by decide),
     if_neg (by decide), if_neg (by decide), if_neg (by decide),
     if_neg (by decide), if_neg (by decide), if_neg (by decide),
     if_neg (by decide), if_neg (by decide), if_neg (by decide),
     if_pos (by decide)]
  cases h : rsplitHyphen v with
  | some p =>
    obtain ⟨b, ver⟩ := p
    have : '-' ∈ v := by
      by_contra hn
      simp [(rsplitHyphen_eq_none_iff v).mpr hn] at h
    simp [this]
  | none =>
    simp [(rsplitHyphen_eq_none_iff v).mp h]

/-- Witness for C9 at a concrete hyphen-free value. -/
theorem c9_witness :
    SummaryEntry.new.parse_entry ("PKGNAME".data) ("foo".data) =
      ParseResult.panic :=
  (c9_pkgname_panics_iff_no_hyphen SummaryEntry.new ("foo".data)).mpr
    (by decide)

/-! ### C4 — numeric field handling -/

/-- C4 (amended): values of the FILE_SIZE and SIZE_PKG keys must parse as
signed 64-bit integers; any in-range integer — negative values included —
is accepted and stored, while a malformed or out-of-range value makes
`parse_entry` panic (abrupt termination), not return a recoverable
per-record error. -/
theorem c4_numeric_fields_amended (e : SummaryEntry) (v : List Char) :
    e.parse_entry ("FILE_SIZE".data) v =
      (match parseI64 v with
       | some n => ParseResult.ok { e with file_size := some n }
       | none => ParseResult.panic) ∧
    e.parse_entry ("SIZE_PKG".data) v =
      (match parseI64 v with
       | some n => ParseResult.ok { e with size_pkg := some n }
       | none => ParseResult.panic) := by
  constructor
  · unfold SummaryEntry.parse_entry
    rw [if_neg (by decide), if_neg (by decide), if_neg (by decide),
       if_neg (by decide), if_neg (by decide), if_neg (by decide),
       if_neg (by decide), if_neg (by decide), if_pos (by decide)]
  · unfold SummaryEntry.parse_entry
    rw [if_neg (by decide), if_neg (by decide), if_neg (by decide),
       if_neg (by decide), if_neg (by decide), if_neg (by decide),
       if_neg (by decide), if_neg (by decide), if_neg (by decide),
       if_neg (by decide), if_neg (by decide), if_neg (by decide),
       if_neg (by decide), if_neg (by decide), if_neg (by decide),
       if_neg (by decide), if_neg (by decide), if_neg (by decide),
       if_neg (by decide), if_neg (by decide), if_neg (by decide),
       if_pos (by decide)]

/-- The document used to refute C4 as stated: a record carrying negative
FILE_SIZE and SIZE_PKG values and every required field. -/
def c4Doc : List Char :=
  ("BUILD_DATE=b\nCATEGORIES=c\nCOMMENT=m\nDESCRIPTION=d\nFILE_SIZE=-5\n" ++
   "MACHINE_ARCH=a\nOPSYS=o\nOS_VERSION=v\nPKGNAME=foo-1.0\nPKGPATH=p\n" ++
   "PKGTOOLS_VERSION=t\nSIZE_PKG=-7\n\n").data

/-- Counterexample to C4 as stated: the record of `c4Doc` carries the
negative values -5 and -7 for FILE_SIZE and SIZE_PKG, yet it IS accepted —
the entry appears in the parsed output with those negative values stored
(and, for contrast, a malformed numeric value does abort the stream). -/
theorem c4_counterexample :
    (SummaryStream.new.write c4Doc).map
        (fun s => s.entries.map (fun e => (e.file_size, e.size_pkg))) =
      some [(some (-5), some (-7))] ∧
    SummaryStream.new.write ("FILE_SIZE=x\n\n".data) = none := by
  constructor
  · decide
  · decide

/-- Witness for C4 (amended) at a malformed and a negative value. -/
theorem c4_witness :
    SummaryEntry.new.parse_entry ("FILE_SIZE".data) ("abc".data) =
        ParseResult.panic ∧
    SummaryEntry.new.parse_entry ("SIZE_PKG".data) ("-7".data) =
        ParseResult.ok { SummaryEntry.new with size_pkg := some (-7) } := by
  constructor
  · exact (c4_numeric_fields_amended SummaryEntry.new ("abc".data)).1
  · exact (c4_numeric_fields_amended SummaryEntry.new ("-7".data)).2

/-! ### C3 — validation completeness -/

/-- C3 (amended): a record whose lines parse panic-free into an entry
contributes that entry to the parsed output exactly when all required
fields are present — the required set being the ten non-empty string
fields (the spec's required scalars TOGETHER WITH the multi-valued
CATEGORIES and DESCRIPTION fields) plus a present SIZE_PKG. -/
theorem c3_validation_completeness_amended (rec : List Char)
    (e : SummaryEntry)
    (hp : parseLines SummaryEntry.new (rustLines rec) = some e) :
    keepEntry rec = some e ↔
      (e.build_date ≠ [] ∧ e.categories ≠ [] ∧ e.comment ≠ [] ∧
       e.description ≠ [] ∧ e.machine_arch ≠ [] ∧ e.opsys ≠ [] ∧
       e.os_version ≠ [] ∧ e.pkgname ≠ [] ∧ e.pkgpath ≠ [] ∧
       e.pkgtools_version ≠ [] ∧ e.size_pkg ≠ none) := by
  rw [← validate_eq_none_iff]
  unfold keepEntry
  rw [hp]
  cases h : e.validate with
  | none => simp [h]
  | some msg => simp [h]

/-- The record used to refute C3 as stated: every field of the spec's
required-scalar set is present and well-formed, but there is no
CATEGORIES line. -/
def c3Rec : List Char :=
  ("BUILD_DATE=b\nCOMMENT=m\nDESCRIPTION=d\nMACHINE_ARCH=a\nOPSYS=o\n" ++
   "OS_VERSION=v\nPKGNAME=foo-1.0\nPKGPATH=p\nPKGTOOLS_VERSION=t\n" ++
   "SIZE_PKG=0").data

/-- The record of `c3Rec` as a complete one-record document. -/
def c3Doc : List Char := c3Rec ++ "\n\n".data

/-- The entry parsed from `c3Rec`. -/
def c3Entry : SummaryEntry :=
  { build_date := "b".data, comment := "m".data,
    description := ["d".data], machine_arch := "a".data,
    opsys := "o".data, os_version := "v".data,
    pkgname := "foo-1.0".data, pkgbase := "foo".data,
    pkgversion := "1.0".data, pkgpath := "p".data,
    pkgtools_version := "t".data, size_pkg := some 0 }

/-- Counterexample to C3 as stated: the single record of `c3Doc` parses
into `c3Entry`, whose spec-required scalar fields (build date, comment,
machine architecture, opsys, os version, package name, package path,
tooling version) are all non-empty, whose description is present, and
whose size field is present — yet the parsed output is empty, because the
source's `validate` additionally demands a CATEGORIES line. -/
theorem c3_counterexample :
    parseLines SummaryEntry.new (rustLines c3Rec) = some c3Entry ∧
    c3Entry.build_date ≠ [] ∧ c3Entry.comment ≠ [] ∧
    c3Entry.description ≠ [] ∧ c3Entry.machine_arch ≠ [] ∧
    c3Entry.opsys ≠ [] ∧ c3Entry.os_version ≠ [] ∧
    c3Entry.pkgname ≠ [] ∧ c3Entry.pkgpath ≠ [] ∧
    c3Entry.pkgtools_version ≠ [] ∧ c3Entry.size_pkg ≠ none ∧
    SummaryStream.new.write c3Doc = some ⟨[], []⟩ := by
  refine ⟨by decide, by decide, by decide, by decide, by decide, by decide,
    by decide, by decide, by decide, by decide, by decide, by decide⟩

/-- Witness for C3 (amended) at the concrete record of `c3Doc` (which
lacks CATEGORIES, so it contributes nothing). -/
theorem c3_witness : ¬ (keepEntry c3Rec = some c3Entry) := by
  have h := c3_validation_completeness_amended c3Rec c3Entry (by decide)
  intro hk
  have := h.mp hk
  exact this.2.1 (by decide)

/-- Unfolding of `SummaryStream.write` when the grown buffer has no
record boundary: everything is retained, nothing is parsed. -/
theorem write_none_eq (st : SummaryStream) (a : List Char)
    (h : splitLastBoundary (st.buf ++ a) = none) :
    st.write a = some ⟨st.buf ++ a, st.entries⟩ := by
  unfold SummaryStream.write
  rw [h]

/-- Unfolding of `SummaryStream.write` when the grown buffer splits at a
last record boundary. -/
theorem write_some_eq (st : SummaryStream) (a pre rest : List Char)
    (h : splitLastBoundary (st.buf ++ a) = some (pre, rest)) :
    st.write a =
      (match processRecords st.entries (splitRecords pre) with
       | none => none
       | some es => some ⟨rest, es⟩) := by
  unfold SummaryStream.write
  rw [h]

/-! ### C7 — one bad record never aborts the batch -/

/-- When every record of a batch parses panic-free, the record loop
succeeds and appends exactly the validated entries, in record order;
records failing validation are skipped without aborting. -/
theorem processRecords_eq_filterMap (rs : List (List Char)) :
    ∀ (entries : List SummaryEntry),
      (∀ r ∈ rs, (parseLines SummaryEntry.new (rustLines r)).isSome) →
      processRecords entries rs = some (entries ++ rs.filterMap keepEntry) := by
  induction rs with
  | nil => intro entries _; simp [processRecords]
  | cons r rs ih =>
    intro entries hall
    have hr := hall r (by simp)
    obtain ⟨e, he⟩ := Option.isSome_iff_exists.mp hr
    have hrest : ∀ x ∈ rs, (parseLines SummaryEntry.new (rustLines x)).isSome :=
      fun x hx => hall x (by simp [hx])
    cases hv : e.validate with
    | none =>
      simp only [processRecords, he, hv, List.filterMap_cons, keepEntry]
      rw [ih (entries ++ [e]) hrest]
      simp
    | some msg =>
      simp only [processRecords, he, hv, List.filterMap_cons, keepEntry]
      exact ih entries hrest

/-- C7: for a write whose consumed prefix splits into records that all
parse panic-free, a record failing validation is dropped and processing
continues: the resulting entry list extends the previous one with exactly
the validated entries of the prefix, in order, and the call succeeds. -/
theorem c7_bad_record_continues (st : SummaryStream) (doc pre rest : List Char)
    (hb : splitLastBoundary (st.buf ++ doc) = some (pre, rest))
    (hp : ∀ r ∈ splitRecords pre,
      (parseLines SummaryEntry.new (rustLines r)).isSome) :
    st.write doc =
      some ⟨rest, st.entries ++ (splitRecords pre).filterMap keepEntry⟩ := by
  rw [write_some_eq st doc pre rest hb,
    processRecords_eq_filterMap (splitRecords pre) st.entries hp]

/-- A three-record document whose middle record fails validation. -/
def c7Doc : List Char :=
  ("BUILD_DATE=b\nCATEGORIES=c\nCOMMENT=m\nDESCRIPTION=d\nMACHINE_ARCH=a\n" ++
   "OPSYS=o\nOS_VERSION=v\nPKGNAME=foo-1.0\nPKGPATH=p\n" ++
   "PKGTOOLS_VERSION=t\nSIZE_PKG=0\n\n" ++
   "COMMENT=only a comment\n\n" ++
   "BUILD_DATE=b\nCATEGORIES=c\nCOMMENT=m\nDESCRIPTION=d\nMACHINE_ARCH=a\n" ++
   "OPSYS=o\nOS_VERSION=v\nPKGNAME=bar-2.0\nPKGPATH=p\n" ++
   "PKGTOOLS_VERSION=t\nSIZE_PKG=0\n\n").data

/-- Witness for C7 at `c7Doc`: the invalid middle record is dropped and
both surrounding valid records are kept, in order. -/
theorem c7_witness :
    SummaryStream.new.write c7Doc =
      some ⟨[], SummaryStream.new.entries ++
        (splitRecords c7Doc).filterMap keepEntry⟩ :=
  c7_bad_record_continues SummaryStream.new c7Doc c7Doc [] (by decide)
    (by decide)

/-! ### C8 — truncated trailing record -/

/-- A document of two complete records followed by a truncated third. -/
def c8Doc : List Char :=
  ("BUILD_DATE=b\nCATEGORIES=c\nCOMMENT=m\nDESCRIPTION=d\nMACHINE_ARCH=a\n" ++
   "OPSYS=o\nOS_VERSION=v\nPKGNAME=foo-1.0\nPKGPATH=p\n" ++
   "PKGTOOLS_VERSION=t\nSIZE_PKG=0\n\n" ++
   "BUILD_DATE=b\nCATEGORIES=c\nCOMMENT=m\nDESCRIPTION=d\nMACHINE_ARCH=a\n" ++
   "OPSYS=o\nOS_VERSION=v\nPKGNAME=bar-2.0\nPKGPATH=p\n" ++
   "PKGTOOLS_VERSION=t\nSIZE_PKG=0\n\n" ++
   "BUILD_DATE=trunc").data

/-- C8: feeding `c8Doc` — two complete records and one truncated trailing
record with no terminating blank line — to the stream splitter yields
exactly the two complete records' entries, and the truncated record's
text stays unconsumed in the buffer. -/
theorem c8_truncated_trailing_record :
    (SummaryStream.new.write c8Doc).map
        (fun s => (s.entries.map SummaryEntry.pkgname, s.buf)) =
      some (["foo-1.0".data, "bar-2.0".data], "BUILD_DATE=trunc".data) := by
  decide

/-! ### C2 — schema version reset -/

/-- A database created by an earlier schema generation: all thirteen
default tables exist and the stored version stamp differs from
`DB_VERSION`. -/
def c2StaleSchema : Schema :=
  { tables := defaultTableNames, version := some 20190101 }

/-- C2 (code bug): on a version mismatch the source drops only five of
the thirteen tables, so the satellite tables survive; the subsequent
re-creation then fails on the first surviving table (plain CREATE TABLE of
an existing table is an SQL error) and the open fails instead of
succeeding with a reset schema.  Concretely: opening `c2StaleSchema`
fails, the dropped set leaves `local_conflicts` behind, while a fresh
database is created fine. -/
theorem c2_version_reset_code_bug :
    PMDB.new c2StaleSchema = none ∧
    (PMDB.drop_default_tables c2StaleSchema).tables.contains
      ("local_conflicts") = true ∧
    PMDB.new { tables := [], version := none } =
      some { tables := defaultTableNames, version := some DB_VERSION } := by
  refine ⟨by decide, by decide, by decide⟩

/-! ### C6 — freshness short-circuit -/

/-- C6: for both kinds of target, when the freshly observed freshness
token equals the stored one (remote: last-modified seconds and summary
suffix; local: mtime seconds and nanoseconds), the orchestrator's step
invokes no store write operation and returns the store unchanged. -/
theorem c6_freshness_short_circuit :
    (∀ (st : RemoteState) (url pfx : List Char) (lm : Int) (sfx : List Char)
       (es : List SummaryEntry) (r : RemoteRepository),
       PMDB.get_remote_repository st url = some r →
       r.mtime = lm → r.summary_suffix = sfx →
       update_remote_step st url pfx lm sfx es = some (st, false)) ∧
    (∀ (st : LocalState) (pfx : List Char) (m : Int) (n : Int)
       (es : List SummaryEntry) (r : LocalRepository),
       PMDB.get_local_repository st pfx = some r →
       r.mtime = m → r.ntime = n →
       update_local_step st pfx m n es = some (st, false)) := by
  constructor
  · intro st url pfx lm sfx es r hget hm hs
    unfold update_remote_step
    rw [hget]
    dsimp only
    have : r.up_to_date lm sfx = true := by
      unfold RemoteRepository.up_to_date
      rw [hm, hs]
      simp
    rw [this]
    simp
  · intro st pfx m n es r hget hm hn
    unfold update_local_step
    rw [hget]
    dsimp only
    have : r.up_to_date m n = true := by
      unfold LocalRepository.up_to_date
      rw [hm, hn]
      simp
    rw [this]
    simp

/-- A remote store with one repository row, for the C6 witness. -/
def c6RemoteState : RemoteState :=
  { repos := [⟨1, "pfx".data, "url".data, "xz".data, 55⟩] }

/-- Witness for C6: with the stored token equal to the observed token
(55, "xz"), the step performs no write and leaves the store unchanged. -/
theorem c6_witness :
    update_remote_step c6RemoteState ("url".data) ("pfx".data) 55 ("xz".data)
      [] = some (c6RemoteState, false) :=
  c6_freshness_short_circuit.1 c6RemoteState ("url".data) ("pfx".data) 55
    ("xz".data) [] ⟨"url".data, 55, "xz".data, false⟩ (by decide) (by decide)
    (by decide)

/-! ### C10 — the size unwrap in the insert loops -/

/-- The record loop only ever appends entries that pass `validate`. -/
theorem processRecords_preserves_validate (rs : List (List Char)) :
    ∀ (es es' : List SummaryEntry), processRecords es rs = some es' →
      (∀ p ∈ es, p.validate = none) → ∀ p ∈ es', p.validate = none := by
  induction rs with
  | nil =>
    intro es es' h hall
    simp only [processRecords, Option.some.injEq] at h
    exact h ▸ hall
  | cons r rs ih =>
    intro es es' h hall
    simp only [processRecords] at h
    cases hp : parseLines SummaryEntry.new (rustLines r) with
    | none => rw [hp] at h; exact absurd h (by simp)
    | some e =>
      rw [hp] at h
      dsimp only at h
      cases hv : e.validate with
      | none =>
        rw [hv] at h
        refine ih (es ++ [e]) es' h ?_
        intro p hpmem
        rcases List.mem_append.mp hpmem with hl | hr
        · exact hall p hl
        · rw [List.mem_singleton.mp hr]; exact hv
      | some msg => rw [hv] at h; exact ih es es' h hall

/-- The local insert loop cannot hit the `size_pkg` unwrap when every
entry has a present size. -/
theorem insert_local_pkgs_isSome (ps : List SummaryEntry) :
    ∀ (st : LocalState) (rid : Int), (∀ p ∈ ps, p.size_pkg.isSome) →
      (PMDB.insert_local_pkgs st rid ps).isSome := by
  induction ps with
  | nil => intro st rid _; simp [PMDB.insert_local_pkgs]
  | cons p ps ih =>
    intro st rid hall
    obtain ⟨sz, hsz⟩ := Option.isSome_iff_exists.mp (hall p (by simp))
    simp only [PMDB.insert_local_pkgs, insertLocalPkg, hsz]
    exact ih _ rid (fun q hq => hall q (by simp [hq]))

/-- The remote insert loop cannot hit the `size_pkg` unwrap when every
entry has a present size. -/
theorem insert_remote_pkgs_isSome (ps : List SummaryEntry) :
    ∀ (st : RemoteState) (rid : Int), (∀ p ∈ ps, p.size_pkg.isSome) →
      (PMDB.insert_remote_pkgs st rid ps).isSome := by
  induction ps with
  | nil => intro st rid _; simp [PMDB.insert_remote_pkgs]
  | cons p ps ih =>
    intro st rid hall
    obtain ⟨sz, hsz⟩ := Option.isSome_iff_exists.mp (hall p (by simp))
    simp only [PMDB.insert_remote_pkgs, insertRemotePkg, hsz]
    exact ih _ rid (fun q hq => hall q (by simp [hq]))

/-- C10: every entry accepted by `validate` has a present `size_pkg`;
consequently, for an entry list all of whose entries pass `validate`, the
unconditional unwrap of `size_pkg` inside `insert_local_pkgs` and
`insert_remote_pkgs` never panics; and the write path does establish that
precondition — `SummaryStream.write` only ever adds validated entries. -/
theorem c10_size_unwrap_safe :
    (∀ (e : SummaryEntry), e.validate = none → e.size_pkg.isSome) ∧
    (∀ (ps : List SummaryEntry), (∀ p ∈ ps, p.validate = none) →
      (∀ (st : LocalState) (rid : Int),
        (PMDB.insert_local_pkgs st rid ps).isSome) ∧
      (∀ (st : RemoteState) (rid : Int),
        (PMDB.insert_remote_pkgs st rid ps).isSome)) ∧
    (∀ (st : SummaryStream) (a : List Char) (st' : SummaryStream),
      st.write a = some st' → (∀ p ∈ st.entries, p.validate = none) →
      ∀ p ∈ st'.entries, p.validate = none) := by
  have hsz : ∀ (e : SummaryEntry), e.validate = none → e.size_pkg.isSome := by
    intro e he
    have := ((validate_eq_none_iff e).mp he).2.2.2.2.2.2.2.2.2.2
    exact Option.isSome_iff_ne_none.mpr this
  refine ⟨hsz, ?_, ?_⟩
  · intro ps hall
    have hs : ∀ p ∈ ps, p.size_pkg.isSome := fun p hp => hsz p (hall p hp)
    exact ⟨fun st rid => insert_local_pkgs_isSome ps st rid hs,
           fun st rid => insert_remote_pkgs_isSome ps st rid hs⟩
  · intro st a st' hw hall
    cases hb : splitLastBoundary (st.buf ++ a) with
    | none =>
      rw [write_none_eq st a hb] at hw
      cases hw
      exact hall
    | some pr =>
      obtain ⟨pre, rest⟩ := pr
      rw [write_some_eq st a pre rest hb] at hw
      cases hpr : processRecords st.entries (splitRecords pre) with
      | none => rw [hpr] at hw; exact absurd hw (by simp)
      | some es =>
        rw [hpr] at hw
        have hes : st'.entries = es := by
          cases hw; rfl
        rw [hes]
        exact processRecords_preserves_validate (splitRecords pre)
          st.entries es hpr hall

/-- A fully valid entry, for witnesses. -/
def validEntry : SummaryEntry :=
  { build_date := "b".data, categories := ["c".data], comment := "m".data,
    description := ["d".data], machine_arch := "a".data, opsys := "o".data,
    os_version := "v".data, pkgname := "foo-1.0".data,
    pkgbase := "foo".data, pkgversion := "1.0".data, pkgpath := "p".data,
    pkgtools_version := "t".data, size_pkg := some 0 }

/-- Witness for C10: inserting a concrete validated entry into an empty
store succeeds in both domains. -/
theorem c10_witness :
    (PMDB.insert_local_pkgs {} 1 [validEntry]).isSome ∧
    (PMDB.insert_remote_pkgs {} 1 [validEntry]).isSome := by
  have h := (c10_size_unwrap_safe.2.1 [validEntry]
    (by intro p hp; rw [List.mem_singleton.mp hp]; decide))
  exact ⟨h.1 {} 1, h.2 {} 1⟩

/-! ### C5 — replace idempotence -/

/-- Filtering twice with the same predicate filters once. -/
theorem filter_idem {α : Type} (p : α → Bool) (l : List α) :
    (l.filter p).filter p = l.filter p := by
  induction l with
  | nil => rfl
  | cons a l ih =>
    cases h : p a with
    | true => simp [List.filter_cons, h, ih]
    | false => simp [List.filter_cons, h, ih]

/-- `find?` commutes with mapping a function that does not change the
predicate's verdict. -/
theorem find?_map_of_pred {α : Type} (f : α → α) (p : α → Bool)
    (hf : ∀ a, p (f a) = p a) (l : List α) :
    (l.map f).find? p = (l.find? p).map f := by
  induction l with
  | nil => rfl
  | cons a l ih =>
    cases h : p a with
    | true =>
      simp [List.find?_cons, hf, h]
    | false =>
      simp [List.find?_cons, hf, h, ih]

/-- Mapping a pointwise-idempotent function twice maps it once. -/
theorem map_idem {α : Type} (f : α → α) (hf : ∀ a, f (f a) = f a)
    (l : List α) : (l.map f).map f = l.map f := by
  induction l with
  | nil => rfl
  | cons a l ih => simp [List.map_cons, hf, ih]

/-- The satellite-insert loop only adds rows of the given repository:
filtering the other repositories' rows out is unaffected. -/
theorem addSatRows_filter (rid pid : Int) :
    ∀ (vals : List (List Char)) (tbl : List SatRow),
      (addSatRows rid pid tbl vals).filter (fun r => r.repository_id != rid) =
        tbl.filter (fun r => r.repository_id != rid) := by
  intro vals
  induction vals with
  | nil => intro tbl; rfl
  | cons v vs ih =>
    intro tbl
    simp only [addSatRows]
    rw [ih]
    simp [List.filter_append]

/-- `remoteMetaUpd` leaves the url (the lookup key) unchanged. -/
theorem remoteMetaUpd_url (url : List Char) (m : Int) (sfx : List Char)
    (r : RemoteRepoRow) : (remoteMetaUpd url m sfx r).url = r.url := by
  unfold remoteMetaUpd; split <;> rfl

/-- `remoteMetaUpd` leaves the row id unchanged. -/
theorem remoteMetaUpd_id (url : List Char) (m : Int) (sfx : List Char)
    (r : RemoteRepoRow) : (remoteMetaUpd url m sfx r).id = r.id := by
  unfold remoteMetaUpd; split <;> rfl

/-- `remoteMetaUpd` is pointwise idempotent. -/
theorem remoteMetaUpd_idem (url : List Char) (m : Int) (sfx : List Char)
    (r : RemoteRepoRow) :
    remoteMetaUpd url m sfx (remoteMetaUpd url m sfx r) =
      remoteMetaUpd url m sfx r := by
  unfold remoteMetaUpd
  by_cases h : r.url == url
  · simp [h]
  · simp [h]

/-- `localMetaUpd` leaves the prefix (the lookup key) unchanged. -/
theorem localMetaUpd_prefixPath (pfx : List Char) (m n : Int)
    (r : LocalRepoRow) : (localMetaUpd pfx m n r).prefixPath = r.prefixPath := by
  unfold localMetaUpd; split <;> rfl

/-- `localMetaUpd` leaves the row id unchanged. -/
theorem localMetaUpd_id (pfx : List Char) (m n : Int) (r : LocalRepoRow) :
    (localMetaUpd pfx m n r).id = r.id := by
  unfold localMetaUpd; split <;> rfl

/-- `localMetaUpd` is pointwise idempotent. -/
theorem localMetaUpd_idem (pfx : List Char) (m n : Int) (r : LocalRepoRow) :
    localMetaUpd pfx m n (localMetaUpd pfx m n r) = localMetaUpd pfx m n r := by
  unfold localMetaUpd
  by_cases h : r.prefixPath == pfx
  · simp [h]
  · simp [h]

/-- The remote insert loop leaves the repository table alone and adds only
rows owned by the given repository id. -/
theorem insert_remote_pkgs_inv (rid : Int) :
    ∀ (ps : List SummaryEntry) (s s' : RemoteState),
      PMDB.insert_remote_pkgs s rid ps = some s' →
      s'.repos = s.repos ∧
      s'.pkgs.filter (fun r => r.repository_id != rid) =
        s.pkgs.filter (fun r => r.repository_id != rid) ∧
      s'.conflicts.filter (fun r => r.repository_id != rid) =
        s.conflicts.filter (fun r => r.repository_id != rid) ∧
      s'.depends.filter (fun r => r.repository_id != rid) =
        s.depends.filter (fun r => r.repository_id != rid) ∧
      s'.provides.filter (fun r => r.repository_id != rid) =
        s.provides.filter (fun r => r.repository_id != rid) ∧
      s'.requiresRows.filter (fun r => r.repository_id != rid) =
        s.requiresRows.filter (fun r => r.repository_id != rid) := by
  intro ps
  induction ps with
  | nil =>
    intro s s' h
    simp only [PMDB.insert_remote_pkgs, Option.some.injEq] at h
    subst h
    exact ⟨rfl, rfl, rfl, rfl, rfl, rfl⟩
  | cons p ps ih =>
    intro s s' h
    simp only [PMDB.insert_remote_pkgs] at h
    cases hsz : p.size_pkg with
    | none => rw [insertRemotePkg, hsz] at h; exact absurd h (by simp)
    | some sz =>
      rw [insertRemotePkg, hsz] at h
      dsimp only at h
      obtain ⟨h1, h2, h3, h4, h5, h6⟩ := ih _ s' h
      refine ⟨h1, ?_, ?_, ?_, ?_, ?_⟩ <;>
        simp_all [List.filter_append, addSatRows_filter]

/-- The remote insert loop reads and writes only the package and satellite
tables: changing the repository table beforehand commutes with it. -/
theorem insert_remote_pkgs_body_congr (rid : Int) :
    ∀ (ps : List SummaryEntry) (s t : RemoteState),
      s.pkgs = t.pkgs → s.conflicts = t.conflicts → s.depends = t.depends →
      s.provides = t.provides → s.requiresRows = t.requiresRows →
      PMDB.insert_remote_pkgs s rid ps =
        (PMDB.insert_remote_pkgs t rid ps).map
          (fun y => { y with repos := s.repos }) := by
  intro ps
  induction ps with
  | nil =>
    intro s t h1 h2 h3 h4 h5
    cases s; cases t
    simp_all [PMDB.insert_remote_pkgs]
  | cons p ps ih =>
    intro s t h1 h2 h3 h4 h5
    cases s; cases t
    simp only at h1 h2 h3 h4 h5
    subst h1; subst h2; subst h3; subst h4; subst h5
    simp only [PMDB.insert_remote_pkgs]
    cases hsz : p.size_pkg with
    | none => simp [insertRemotePkg, hsz]
    | some sz =>
      simp only [insertRemotePkg, hsz]
      exact ih _ _ rfl rfl rfl rfl rfl

/-- Replaying `update_remote_repository` with the same key, token and
entry list is a no-op on its own successful result. -/
theorem update_remote_repository_idem (st : RemoteState) (url : List Char)
    (m : Int) (sfx : List Char) (ps : List SummaryEntry) (st' : RemoteState)
    (h : PMDB.update_remote_repository st url m sfx ps = some st') :
    PMDB.update_remote_repository st' url m sfx ps = some st' := by
  unfold PMDB.update_remote_repository at h ⊢
  cases hf : st.repos.find? (fun r => r.url == url) with
  | none => rw [hf] at h; exact absurd h (by simp)
  | some repo =>
    rw [hf] at h
    dsimp only at h
    cases hi : PMDB.insert_remote_pkgs (PMDB.delete_remote_pkgs st repo.id)
        repo.id ps with
    | none => rw [hi] at h; exact absurd h (by simp)
    | some st2 =>
      rw [hi] at h
      dsimp only at h
      have hst' : st' =
          { st2 with repos := st2.repos.map (remoteMetaUpd url m sfx) } := by
        cases h; rfl
      subst hst'
      obtain ⟨hrepos2, hp2, hc2, hd2, hpr2, hr2⟩ :=
        insert_remote_pkgs_inv repo.id ps _ st2 hi
      simp only [PMDB.delete_remote_pkgs] at hp2 hc2 hd2 hpr2 hr2
      have hrepos : st2.repos = st.repos := hrepos2
      have hpred : ∀ a : RemoteRepoRow,
          ((remoteMetaUpd url m sfx a).url == url) = (a.url == url) := by
        intro a; rw [remoteMetaUpd_url]
      have hfind : (st2.repos.map (remoteMetaUpd url m sfx)).find?
          (fun r => r.url == url) = some (remoteMetaUpd url m sfx repo) := by
        rw [find?_map_of_pred _ _ hpred, hrepos, hf]
        rfl
      dsimp only
      rw [hfind]
      dsimp only
      rw [remoteMetaUpd_id]
      have hcongr := insert_remote_pkgs_body_congr repo.id ps
        (PMDB.delete_remote_pkgs
          { st2 with repos := st2.repos.map (remoteMetaUpd url m sfx) } repo.id)
        (PMDB.delete_remote_pkgs st repo.id)
        (by simp only [PMDB.delete_remote_pkgs]
            rw [hp2]; exact filter_idem _ _)
        (by simp only [PMDB.delete_remote_pkgs]
            rw [hc2]; exact filter_idem _ _)
        (by simp only [PMDB.delete_remote_pkgs]
            rw [hd2]; exact filter_idem _ _)
        (by simp only [PMDB.delete_remote_pkgs]
            rw [hpr2]; exact filter_idem _ _)
        (by simp only [PMDB.delete_remote_pkgs]
            rw [hr2]; exact filter_idem _ _)
      rw [hcongr, hi]
      simp only [Option.map_some', PMDB.delete_remote_pkgs]
      rw [map_idem _ (remoteMetaUpd_idem url m sfx)]

/-- The local insert loop leaves the repository table alone and adds only
rows owned by the given repository id. -/
theorem insert_local_pkgs_inv (rid : Int) :
    ∀ (ps : List SummaryEntry) (s s' : LocalState),
      PMDB.insert_local_pkgs s rid ps = some s' →
      s'.repos = s.repos ∧
      s'.pkgs.filter (fun r => r.repository_id != rid) =
        s.pkgs.filter (fun r => r.repository_id != rid) ∧
      s'.conflicts.filter (fun r => r.repository_id != rid) =
        s.conflicts.filter (fun r => r.repository_id != rid) ∧
      s'.depends.filter (fun r => r.repository_id != rid) =
        s.depends.filter (fun r => r.repository_id != rid) ∧
      s'.provides.filter (fun r => r.repository_id != rid) =
        s.provides.filter (fun r => r.repository_id != rid) ∧
      s'.requiresRows.filter (fun r => r.repository_id != rid) =
        s.requiresRows.filter (fun r => r.repository_id != rid) := by
  intro ps
  induction ps with
  | nil =>
    intro s s' h
    simp only [PMDB.insert_local_pkgs, Option.some.injEq] at h
    subst h
    exact ⟨rfl, rfl, rfl, rfl, rfl, rfl⟩
  | cons p ps ih =>
    intro s s' h
    simp only [PMDB.insert_local_pkgs] at h
    cases hsz : p.size_pkg with
    | none => rw [insertLocalPkg, hsz] at h; exact absurd h (by simp)
    | some sz =>
      rw [insertLocalPkg, hsz] at h
      dsimp only at h
      obtain ⟨h1, h2, h3, h4, h5, h6⟩ := ih _ s' h
      refine ⟨h1, ?_, ?_, ?_, ?_, ?_⟩ <;>
        simp_all [List.filter_append, addSatRows_filter]

/-- The local insert loop reads and writes only the package and satellite
tables: changing the repository table beforehand commutes with it. -/
theorem insert_local_pkgs_body_congr (rid : Int) :
    ∀ (ps : List SummaryEntry) (s t : LocalState),
      s.pkgs = t.pkgs → s.conflicts = t.conflicts → s.depends = t.depends →
      s.provides = t.provides → s.requiresRows = t.requiresRows →
      PMDB.insert_local_pkgs s rid ps =
        (PMDB.insert_local_pkgs t rid ps).map
          (fun y => { y with repos := s.repos }) := by
  intro ps
  induction ps with
  | nil =>
    intro s t h1 h2 h3 h4 h5
    cases s; cases t
    simp_all [PMDB.insert_local_pkgs]
  | cons p ps ih =>
    intro s t h1 h2 h3 h4 h5
    cases s; cases t
    simp only at h1 h2 h3 h4 h5
    subst h1; subst h2; subst h3; subst h4; subst h5
    simp only [PMDB.insert_local_pkgs]
    cases hsz : p.size_pkg with
    | none => simp [insertLocalPkg, hsz]
    | some sz =>
      simp only [insertLocalPkg, hsz]
      exact ih _ _ rfl rfl rfl rfl rfl

/-- Replaying `update_local_repository` with the same key, token and entry
list is a no-op on its own successful result. -/
theorem update_local_repository_idem (st : LocalState) (pfx : List Char)
    (m n : Int) (ps : List SummaryEntry) (st' : LocalState)
    (h : PMDB.update_local_repository st pfx m n ps = some st') :
    PMDB.update_local_repository st' pfx m n ps = some st' := by
  unfold PMDB.update_local_repository at h ⊢
  cases hf : st.repos.find? (fun r => r.prefixPath == pfx) with
  | none => rw [hf] at h; exact absurd h (by simp)
  | some repo =>
    rw [hf] at h
    dsimp only at h
    cases hi : PMDB.insert_local_pkgs (PMDB.delete_local_pkgs st repo.id)
        repo.id ps with
    | none => rw [hi] at h; exact absurd h (by simp)
    | some st2 =>
      rw [hi] at h
      dsimp only at h
      have hst' : st' =
          { st2 with repos := st2.repos.map (localMetaUpd pfx m n) } := by
        cases h; rfl
      subst hst'
      obtain ⟨hrepos2, hp2, hc2, hd2, hpr2, hr2⟩ :=
        insert_local_pkgs_inv repo.id ps _ st2 hi
      simp only [PMDB.delete_local_pkgs] at hp2 hc2 hd2 hpr2 hr2
      have hrepos : st2.repos = st.repos := hrepos2
      have hpred : ∀ a : LocalRepoRow,
          ((localMetaUpd pfx m n a).prefixPath == pfx) =
            (a.prefixPath == pfx) := by
        intro a; rw [localMetaUpd_prefixPath]
      have hfind : (st2.repos.map (localMetaUpd pfx m n)).find?
          (fun r => r.prefixPath == pfx) = some (localMetaUpd pfx m n repo) := by
        rw [find?_map_of_pred _ _ hpred, hrepos, hf]
        rfl
      dsimp only
      rw [hfind]
      dsimp only
      rw [localMetaUpd_id]
      have hcongr := insert_local_pkgs_body_congr repo.id ps
        (PMDB.delete_local_pkgs
          { st2 with repos := st2.repos.map (localMetaUpd pfx m n) } repo.id)
        (PMDB.delete_local_pkgs st repo.id)
        (by simp only [PMDB.delete_local_pkgs]
            rw [hp2]; exact filter_idem _ _)
        (by simp only [PMDB.delete_local_pkgs]
            rw [hc2]; exact filter_idem _ _)
        (by simp only [PMDB.delete_local_pkgs]
            rw [hd2]; exact filter_idem _ _)
        (by simp only [PMDB.delete_local_pkgs]
            rw [hpr2]; exact filter_idem _ _)
        (by simp only [PMDB.delete_local_pkgs]
            rw [hr2]; exact filter_idem _ _)
      rw [hcongr, hi]
      simp only [Option.map_some', PMDB.delete_local_pkgs]
      rw [map_idem _ (localMetaUpd_idem pfx m n)]

/-- C5: calling the replace operation twice in succession with the same
key, freshness token and entry list leaves the store's contents —
repository rows, package rows, satellite rows and freshness metadata —
identical to calling it once, in both domains. -/
theorem c5_replace_idempotent :
    (∀ (st : RemoteState) (url : List Char) (m : Int) (sfx : List Char)
       (ps : List SummaryEntry) (st' : RemoteState),
       PMDB.update_remote_repository st url m sfx ps = some st' →
       PMDB.update_remote_repository st' url m sfx ps = some st') ∧
    (∀ (st : LocalState) (pfx : List Char) (m n : Int)
       (ps : List SummaryEntry) (st' : LocalState),
       PMDB.update_local_repository st pfx m n ps = some st' →
       PMDB.update_local_repository st' pfx m n ps = some st') :=
  ⟨fun st url m sfx ps st' h =>
      update_remote_repository_idem st url m sfx ps st' h,
   fun st pfx m n ps st' h =>
      update_local_repository_idem st pfx m n ps st' h⟩

/-- A stale package row, for the C5 witness store. -/
def c5OldRow : RemotePkgRow :=
  { id := 1, repository_id := 1, build_date := "old".data,
    categories := [], comment := [], description := [], file_size := 0,
    homepage := [], license := [], opsys := [], os_version := [],
    pkg_options := [], pkgbase := [], pkgname := "old-1.0".data,
    pkgpath := [], pkgtools_version := [], pkgversion := [],
    size_pkg := 0 }

/-- A remote store with one repository row and one stale package row, for
the C5 witness. -/
def c5State : RemoteState :=
  { repos := [⟨1, "pfx".data, "url".data, "gz".data, 5⟩],
    pkgs := [c5OldRow] }

/-- The package row of `validEntry` as stored by the replace. -/
def c5NewRow : RemotePkgRow :=
  { id := 1, repository_id := 1, build_date := "b".data,
    categories := "c".data, comment := "m".data, description := "d".data,
    file_size := 0, homepage := [], license := [], opsys := "o".data,
    os_version := "v".data, pkg_options := [], pkgbase := "foo".data,
    pkgname := "foo-1.0".data, pkgpath := "p".data,
    pkgtools_version := "t".data, pkgversion := "1.0".data,
    size_pkg := 0 }

/-- The result of replacing `c5State`'s repository with `[validEntry]`
under the new token (7, "xz"). -/
def c5State2 : RemoteState :=
  { repos := [⟨1, "pfx".data, "url".data, "xz".data, 7⟩],
    pkgs := [c5NewRow] }

/-- Witness for C5 at a concrete store: the second replace returns exactly
the state produced by the first. -/
theorem c5_witness :
    PMDB.update_remote_repository c5State2 ("url".data) 7 ("xz".data)
      [validEntry] = some c5State2 :=
  c5_replace_idempotent.1 c5State ("url".data) 7 ("xz".data) [validEntry]
    c5State2 (by rfl)

/-! ### C1 — chunking invariance -/

/-- A triple-newline-free list has a triple-newline-free prefix. -/
theorem hasTriple_append_left (x y : List Char)
    (h : hasTriple (x ++ y) = false) : hasTriple x = false := by
  induction x with
  | nil => rfl
  | cons c x' ih =>
    simp only [List.cons_append, hasTriple, Bool.or_eq_false_iff,
      decide_eq_false_iff_not] at h ⊢
    refine ⟨?_, ih h.2⟩
    intro ⟨hc, hh, ht⟩
    rcases x' with _ | ⟨d, _ | ⟨e, t⟩⟩ <;> simp_all

/-- A triple-newline-free list has a triple-newline-free suffix. -/
theorem hasTriple_append_right (x y : List Char)
    (h : hasTriple (x ++ y) = false) : hasTriple y = false := by
  induction x with
  | nil => exact h
  | cons c x' ih =>
    simp only [List.cons_append, hasTriple, Bool.or_eq_false_iff] at h
    exact ih h.2

/-- A list containing three consecutive newlines has a triple. -/
theorem hasTriple_mid (w t : List Char) :
    hasTriple (w ++ '\n' :: '\n' :: '\n' :: t) = true := by
  induction w with
  | nil => simp [hasTriple]
  | cons c w' ih => simp [hasTriple, ih]

/-- One-step unfolding of `splitLastBoundary` on a cons cell. -/
theorem splitLastBoundary_cons (c : Char) (rest : List Char) :
    splitLastBoundary (c :: rest) =
      (match splitLastBoundary rest with
       | some (p, r) => some (c :: p, r)
       | none =>
         if c = '\n' ∧ rest.head? = some '\n' then
           some (['\n', '\n'], rest.tail)
         else none) := rfl

/-- What a successful `splitLastBoundary` guarantees: the two pieces
reassemble the input, the prefix ends with a double newline, and the
remainder contains no further boundary. -/
theorem splitLastBoundary_spec (s p r : List Char)
    (h : splitLastBoundary s = some (p, r)) :
    s = p ++ r ∧ (∃ w, p = w ++ ['\n', '\n']) ∧
      splitLastBoundary r = none := by
  induction s generalizing p r with
  | nil => exact absurd h (by simp [splitLastBoundary])
  | cons c rest ih =>
    rw [splitLastBoundary_cons] at h
    cases hr : splitLastBoundary rest with
    | some pr =>
      obtain ⟨p', r'⟩ := pr
      rw [hr] at h
      simp only [Option.some.injEq, Prod.mk.injEq] at h
      obtain ⟨hp, hrr⟩ := h
      obtain ⟨heq, ⟨w, hw⟩, hnone⟩ := ih p' r' hr
      subst hp; subst hrr
      exact ⟨by rw [heq]; rfl, ⟨c :: w, by rw [hw]; rfl⟩, hnone⟩
    | none =>
      rw [hr] at h
      by_cases hc : c = '\n' ∧ rest.head? = some '\n'
      · rw [if_pos hc] at h
        simp only [Option.some.injEq, Prod.mk.injEq] at h
        obtain ⟨hp, hrr⟩ := h
        obtain ⟨hcn, hh⟩ := hc
        obtain ⟨rt, hrt⟩ : ∃ rt, rest = '\n' :: rt := by
          cases rest with
          | nil => exact absurd hh (by simp)
          | cons d t =>
            simp only [List.head?_cons, Option.some.injEq] at hh
            exact ⟨t, by rw [hh]⟩
        subst hcn
        subst hrt
        simp only [List.tail_cons] at hrr
        subst hrr
        subst hp
        refine ⟨rfl, ⟨[], rfl⟩, ?_⟩
        rw [splitLastBoundary_cons] at hr
        cases hq : splitLastBoundary rt with
        | some pr2 => rw [hq] at hr; simp at hr
        | none => rfl
      · rw [if_neg hc] at h
        exact absurd h (by simp)

/-- When the right part has a boundary, the last boundary of an append is
found inside it. -/
theorem splitLastBoundary_append_right (x y p r : List Char)
    (h : splitLastBoundary y = some (p, r)) :
    splitLastBoundary (x ++ y) = some (x ++ p, r) := by
  induction x with
  | nil => simpa using h
  | cons c x' ih =>
    rw [List.cons_append, splitLastBoundary_cons, ih]
    rfl

/-- When everything after a final double newline is boundary-free and does
not start with a newline, the split happens exactly at that double
newline. -/
theorem splitLastBoundary_append_end (w z : List Char)
    (hz : splitLastBoundary z = none) (hz0 : z.head? ≠ some '\n') :
    splitLastBoundary (w ++ '\n' :: '\n' :: z) =
      some (w ++ ['\n', '\n'], z) := by
  induction w with
  | nil =>
    have h1 : splitLastBoundary ('\n' :: z) = none := by
      rw [splitLastBoundary_cons, hz]
      rw [if_neg]
      intro ⟨_, hh⟩
      exact hz0 hh
    rw [List.nil_append, splitLastBoundary_cons, h1]
    rw [if_pos ⟨rfl, by simp⟩]
    rfl
  | cons c w' ih =>
    rw [List.cons_append, splitLastBoundary_cons, ih]
    rfl

/-- One-step unfolding of `splitRecords` on two leading characters. -/
theorem splitRecords_cons2 (c d : Char) (rest : List Char) :
    splitRecords (c :: d :: rest) =
      (if c = '\n' ∧ d = '\n' then [] :: splitRecords rest
       else
         match splitRecords (d :: rest) with
         | [] => [[c]]
         | l :: ls => (c :: l) :: ls) := rfl

/-- `splitRecords` of a non-empty string is non-empty. -/
theorem splitRecords_ne_nil (s : List Char) (h : s ≠ []) :
    splitRecords s ≠ [] := by
  rcases s with _ | ⟨c, _ | ⟨d, t⟩⟩
  · exact absurd rfl h
  · simp [splitRecords]
  · rw [splitRecords_cons2]
    split
    · simp
    · cases hq : splitRecords (d :: t) <;> simp

/-- The tail of a triple-newline-free list is triple-newline-free. -/
theorem hasTriple_tail (c : Char) (rest : List Char)
    (h : hasTriple (c :: rest) = false) : hasTriple rest = false := by
  simp only [hasTriple, Bool.or_eq_false_iff] at h
  exact h.2

/-- Fuelled form of `splitRecords_append`. -/
theorem splitRecords_append_aux :
    ∀ (k : Nat) (x y : List Char), x.length ≤ k → hasTriple x = false →
      (∃ w, x = w ++ ['\n', '\n']) →
      splitRecords (x ++ y) = splitRecords x ++ splitRecords y := by
  intro k
  induction k with
  | zero =>
    intro x y hl _ hw
    obtain ⟨w, rfl⟩ := hw
    simp at hl
  | succ k ih =>
    intro x y hl ht hw
    obtain ⟨w, rfl⟩ := hw
    cases w with
    | nil =>
      simp only [List.nil_append, List.cons_append]
      rw [splitRecords_cons2, if_pos ⟨rfl, rfl⟩]
      rw [show splitRecords ['\n', '\n'] = [[]] by
        rw [splitRecords_cons2, if_pos ⟨rfl, rfl⟩]; rfl]
      rfl
    | cons c w' =>
      cases w' with
      | nil =>
        by_cases hc : c = '\n'
        · subst hc
          exact absurd ht (by decide)
        · simp only [List.cons_append, List.nil_append]
          rw [splitRecords_cons2 c '\n' ('\n' :: y),
            if_neg (fun hcc => hc hcc.1)]
          rw [show splitRecords ('\n' :: '\n' :: y) = [] :: splitRecords y by
            rw [splitRecords_cons2, if_pos ⟨rfl, rfl⟩]]
          rw [splitRecords_cons2 c '\n' ['\n'],
            if_neg (fun hcc => hc hcc.1)]
          rw [show splitRecords ['\n', '\n'] = [[]] by
            rw [splitRecords_cons2, if_pos ⟨rfl, rfl⟩]; rfl]
          rfl
      | cons d w'' =>
        have hx1len : (d :: (w'' ++ ['\n', '\n'])).length ≤ k := by
          simp only [List.cons_append, List.length_cons] at hl
          simp only [List.length_cons]
          omega
        have hx1 : hasTriple (d :: (w'' ++ ['\n', '\n'])) = false := by
          apply hasTriple_tail c
          simpa using ht
        simp only [List.cons_append]
        by_cases hcd : c = '\n' ∧ d = '\n'
        · obtain ⟨rfl, rfl⟩ := hcd
          have hx2 : hasTriple (w'' ++ ['\n', '\n']) = false :=
            hasTriple_tail _ _ hx1
          have hlen2 : (w'' ++ ['\n', '\n']).length ≤ k := by
            simp only [List.length_cons] at hx1len
            omega
          rw [splitRecords_cons2 '\n' '\n' ((w'' ++ ['\n', '\n']) ++ y),
            if_pos ⟨rfl, rfl⟩]
          rw [ih (w'' ++ ['\n', '\n']) y hlen2 hx2 ⟨w'', rfl⟩]
          rw [splitRecords_cons2 '\n' '\n' (w'' ++ ['\n', '\n']),
            if_pos ⟨rfl, rfl⟩]
          rfl
        · have hIH := ih (d :: (w'' ++ ['\n', '\n'])) y hx1len hx1
            ⟨d :: w'', rfl⟩
          rw [List.cons_append] at hIH
          rw [splitRecords_cons2 c d ((w'' ++ ['\n', '\n']) ++ y),
            if_neg hcd, hIH]
          obtain ⟨l, ls, hsr⟩ :
              ∃ l ls, splitRecords (d :: (w'' ++ ['\n', '\n'])) = l :: ls := by
            cases hq : splitRecords (d :: (w'' ++ ['\n', '\n'])) with
            | nil => exact absurd hq (splitRecords_ne_nil _ (by simp))
            | cons l ls => exact ⟨l, ls, rfl⟩
          rw [hsr]
          rw [splitRecords_cons2 c d (w'' ++ ['\n', '\n']), if_neg hcd, hsr]
          rfl

/-- Greedy record splitting distributes over an append whose left part is
triple-newline-free and ends exactly at a record boundary. -/
theorem splitRecords_append (x y : List Char) (ht : hasTriple x = false)
    (hw : ∃ w, x = w ++ ['\n', '\n']) :
    splitRecords (x ++ y) = splitRecords x ++ splitRecords y :=
  splitRecords_append_aux x.length x y le_rfl ht hw

/-- One-step unfolding of `processRecords` on a cons cell. -/
theorem processRecords_cons (es : List SummaryEntry) (r : List Char)
    (rs : List (List Char)) :
    processRecords es (r :: rs) =
      (match parseLines SummaryEntry.new (rustLines r) with
       | none => none
       | some e =>
         match e.validate with
         | none => processRecords (es ++ [e]) rs
         | some _ => processRecords es rs) := rfl

/-- The record loop over a concatenation of record batches is the
composition of the loops. -/
theorem processRecords_append (rs1 rs2 : List (List Char)) :
    ∀ (es : List SummaryEntry),
      processRecords es (rs1 ++ rs2) =
        (processRecords es rs1).bind (fun es2 => processRecords es2 rs2) := by
  induction rs1 with
  | nil => intro es; simp [processRecords]
  | cons r rs ih =>
    intro es
    rw [List.cons_append, processRecords_cons, processRecords_cons]
    cases hp : parseLines SummaryEntry.new (rustLines r) with
    | none => rfl
    | some e =>
      dsimp only
      cases hv : e.validate with
      | none => exact ih (es ++ [e])
      | some msg => exact ih es

/-- Two consecutive writes are one write of the concatenated input,
provided the total text contains no triple newline. -/
theorem write_append (st : SummaryStream) (a b : List Char)
    (h : hasTriple (st.buf ++ a ++ b) = false) :
    (st.write a).bind (fun s1 => s1.write b) = st.write (a ++ b) := by
  cases h1 : splitLastBoundary (st.buf ++ a) with
  | none =>
    rw [write_none_eq st a h1]
    show SummaryStream.write ⟨st.buf ++ a, st.entries⟩ b = st.write (a ++ b)
    unfold SummaryStream.write
    rw [← List.append_assoc]
  | some pr =>
    obtain ⟨pre, rest⟩ := pr
    rw [write_some_eq st a pre rest h1]
    obtain ⟨heq, ⟨w, hw⟩, hrnone⟩ := splitLastBoundary_spec _ _ _ h1
    have hfull : st.buf ++ (a ++ b) = pre ++ (rest ++ b) := by
      rw [← List.append_assoc, heq, List.append_assoc]
    cases h2 : splitLastBoundary (rest ++ b) with
    | none =>
      have hz0 : (rest ++ b).head? ≠ some '\n' := by
        intro hh
        obtain ⟨t, ht'⟩ : ∃ t, rest ++ b = '\n' :: t := by
          cases hzz : rest ++ b with
          | nil => rw [hzz] at hh; exact absurd hh (by simp)
          | cons u t =>
            rw [hzz] at hh
            simp only [List.head?_cons, Option.some.injEq] at hh
            exact ⟨t, by rw [hh]⟩
        have : hasTriple (st.buf ++ a ++ b) = true := by
          rw [List.append_assoc, hfull, ht', hw]
          rw [show ((w ++ ['\n', '\n']) ++ '\n' :: t) =
            w ++ '\n' :: '\n' :: '\n' :: t by simp]
          exact hasTriple_mid w t
        rw [this] at h
        exact absurd h (by simp)
      have h3 : splitLastBoundary (st.buf ++ (a ++ b)) =
          some (pre, rest ++ b) := by
        rw [hfull, hw]
        rw [show ((w ++ ['\n', '\n']) ++ (rest ++ b)) =
          w ++ '\n' :: '\n' :: (rest ++ b) by simp]
        rw [splitLastBoundary_append_end w (rest ++ b) h2 hz0]
      rw [write_some_eq st (a ++ b) pre (rest ++ b) h3]
      cases hpr : processRecords st.entries (splitRecords pre) with
      | none => rfl
      | some es =>
        show SummaryStream.write ⟨rest, es⟩ b = _
        rw [write_none_eq ⟨rest, es⟩ b h2]
    | some pr2 =>
      obtain ⟨p2, r2⟩ := pr2
      have h3 : splitLastBoundary (st.buf ++ (a ++ b)) =
          some (pre ++ p2, r2) := by
        rw [hfull]
        exact splitLastBoundary_append_right pre (rest ++ b) p2 r2 h2
      rw [write_some_eq st (a ++ b) (pre ++ p2) r2 h3]
      have hpre : hasTriple pre = false := by
        apply hasTriple_append_left pre (rest ++ b)
        rw [← hfull, ← List.append_assoc]
        exact h
      rw [splitRecords_append pre p2 hpre ⟨w, hw⟩, processRecords_append]
      cases hpr : processRecords st.entries (splitRecords pre) with
      | none => rfl
      | some es =>
        show SummaryStream.write ⟨rest, es⟩ b = _
        rw [write_some_eq ⟨rest, es⟩ b p2 r2 h2]
        rfl

/-- A successful write leaves a boundary-free buffer that is a suffix of
the grown input. -/
theorem write_buf_inv (st : SummaryStream) (a : List Char)
    (st' : SummaryStream) (h : st.write a = some st') :
    splitLastBoundary st'.buf = none ∧ ∃ x, st.buf ++ a = x ++ st'.buf := by
  cases h1 : splitLastBoundary (st.buf ++ a) with
  | none =>
    rw [write_none_eq st a h1] at h
    cases h
    exact ⟨h1, [], rfl⟩
  | some pr =>
    obtain ⟨pre, rest⟩ := pr
    rw [write_some_eq st a pre rest h1] at h
    obtain ⟨heq, _, hrnone⟩ := splitLastBoundary_spec _ _ _ h1
    cases hpr : processRecords st.entries (splitRecords pre) with
    | none => rw [hpr] at h; exact absurd h (by simp)
    | some es =>
      rw [hpr] at h
      cases h
      exact ⟨hrnone, pre, heq⟩

/-- Chunked writing equals one write of the joined text, from any state
with a boundary-free buffer, for triple-newline-free text. -/
theorem writeAll_eq_write_join (chunks : List (List Char)) :
    ∀ (st : SummaryStream), splitLastBoundary st.buf = none →
      hasTriple (st.buf ++ chunks.flatten) = false →
      st.writeAll chunks = st.write chunks.flatten := by
  induction chunks with
  | nil =>
    intro st hb _
    rw [show st.writeAll [] = some st from rfl]
    rw [show List.flatten ([] : List (List Char)) = [] from rfl]
    rw [write_none_eq st [] (by rw [List.append_nil]; exact hb)]
    rw [List.append_nil]
  | cons c cs ih =>
    intro st hb h
    rw [show (c :: cs).flatten = c ++ cs.flatten from rfl]
    rw [show (c :: cs).flatten = c ++ cs.flatten from rfl] at h
    rw [← write_append st c cs.flatten (by rw [List.append_assoc]; exact h)]
    show (match st.write c with
          | none => none
          | some st1 => st1.writeAll cs) = _
    cases hw : st.write c with
    | none => rfl
    | some st1 =>
      obtain ⟨hb1, x, hx⟩ := write_buf_inv st c st1 hw
      show st1.writeAll cs = st1.write cs.flatten
      apply ih st1 hb1
      apply hasTriple_append_right x
      rw [← List.append_assoc, ← hx, List.append_assoc]
      exact h

/-- C1 (amended): chunking invariance of the stream splitter holds for
every document (taken as decoded text, with chunk boundaries at character
boundaries) that contains no three consecutive newlines: for every way of
splitting such a document into an ordered sequence of chunks, feeding the
chunks one at a time through `SummaryStream.write` produces the same final
state — the same parsed entry sequence, the same retained buffer, and the
same panic behavior — as feeding the whole document in a single write
call. -/
theorem c1_chunking_invariance_amended (doc : List Char)
    (chunks : List (List Char)) (hj : chunks.flatten = doc)
    (ht : hasTriple doc = false) :
    SummaryStream.new.writeAll chunks = SummaryStream.new.write doc := by
  subst hj
  exact writeAll_eq_write_join chunks SummaryStream.new rfl
    (by rw [show SummaryStream.new.buf = [] from rfl, List.nil_append]
        exact ht)

/-- Witness for C1 (amended): a two-chunk split of a concrete two-record
document, cut in the middle of the boundary of the first record. -/
theorem c1_witness :
    SummaryStream.new.writeAll
        ["BUILD_DATE=x\n".data, "\nCOMMENT=c\n\n".data] =
      SummaryStream.new.write ("BUILD_DATE=x\n\nCOMMENT=c\n\n".data) :=
  c1_chunking_invariance_amended ("BUILD_DATE=x\n\nCOMMENT=c\n\n".data)
    ["BUILD_DATE=x\n".data, "\nCOMMENT=c\n\n".data] (by decide) (by decide)

/-- The first chunk of the C1 counterexample: one record and its
boundary. -/
def c1ChunkA : List Char := "BUILD_DATE=x\n\n".data

/-- The second chunk of the C1 counterexample: a stray newline (which
forms a triple newline with the previous chunk's boundary) and the start
of another record. -/
def c1ChunkB : List Char := "\nB".data

/-- Counterexample to C1 as stated: for the document
`"BUILD_DATE=x\n\nB"` split as `[c1ChunkA, c1ChunkB]`, feeding the chunks
one at a time succeeds with an empty entry sequence (the only record fails
validation and the tail is buffered), while feeding the whole document in
a single write call panics — the last-boundary search consumes through the
third newline and the greedy record split then produces a stray `"\n"`
record whose empty line aborts the stream.  The two runs do not produce
the same final result. -/
theorem c1_counterexample :
    SummaryStream.new.writeAll [c1ChunkA, c1ChunkB] =
      some ⟨"\nB".data, []⟩ ∧
    SummaryStream.new.write (c1ChunkA ++ c1ChunkB) = none := by
  exact ⟨by decide, by decide⟩
